import Mathlib

/-!
# Verification of the discord-slash-bot game engines and economy ledger

Shallow embedding of the casino-game engines (blackjack, slots, roulette,
poker) and the economy ledger of the bot, translated from the Python source:

* `src/economy.py`        — `EconomyManager.add_balance` / `subtract_balance`
* `src/games/blackjack.py`— hand values, blackjack check, dealer turn
* `src/games/slots.py`    — `SlotsGame.calculate_payout`
* `src/games/poker.py`    — 5-card evaluator, best-of-7, fold resolution
* `src/games/roulette.py` — `RouletteGame.parse_prediction` and outcome

Python strings are modelled as `List Char`, the unbounded Python `int` as
`Int` (or `Nat` where the source value is provably non-negative), Python
dicts keyed by insertion order as lists of first occurrences, Python sets
as `Finset ℕ`, and raised exceptions as `Except String`.
-/

/-- The outcome dictionary of a finished game: keys `"won"`, `"winnings"` and the
optional `"push"` flag (absent keys modelled as `false`).  `winnings` is an
`Int` because Python ints are signed and one code path subtracts. -/
structure GameOutcome where
  won : Bool
  winnings : Int
  push : Bool
deriving DecidableEq

/-! ## Economy ledger (`src/economy.py`)

Only the fields touched by `add_balance` / `subtract_balance` are modelled;
the remaining user-record fields are untouched by these two operations. -/

structure UserData where
  balance : Int
  total_winnings : Int
  total_losses : Int
deriving DecidableEq

/-- `EconomyManager.add_balance` (src/economy.py:80-86): adds `amount` to the
balance and to the cumulative `total_winnings`. -/
def add_balance (u : UserData) (amount : Int) : UserData :=
  { u with balance := u.balance + amount,
           total_winnings := u.total_winnings + amount }

/-- `EconomyManager.subtract_balance` (src/economy.py:88-94): clamps the new
balance at 0 via `max(0, balance - amount)` and adds the full `amount` to the
cumulative `total_losses`. -/
def subtract_balance (u : UserData) (amount : Int) : UserData :=
  { u with balance := max 0 (u.balance - amount),
           total_losses := u.total_losses + amount }

/-! ## Shared card suits -/

inductive Suit
  | Hearts
  | Diamonds
  | Clubs
  | Spades
deriving DecidableEq

/-! ## Blackjack (`src/games/blackjack.py`) -/

inductive BJRank
  | A
  | N2
  | N3
  | N4
  | N5
  | N6
  | N7
  | N8
  | N9
  | N10
  | J
  | Q
  | K
deriving DecidableEq

/-- `Card.get_value` (blackjack): J/Q/K are 10, Ace is 11 (handled separately in
hand totals), numeric ranks their face value. -/
def BJRank.get_value : BJRank → Nat
  | .A => 11
  | .N2 => 2
  | .N3 => 3
  | .N4 => 4
  | .N5 => 5
  | .N6 => 6
  | .N7 => 7
  | .N8 => 8
  | .N9 => 9
  | .N10 => 10
  | .J => 10
  | .Q => 10
  | .K => 10

structure BJCard where
  suit : Suit
  rank : BJRank
deriving DecidableEq

/-- The `while aces_as_eleven < aces and soft_value + 10 <= 21` loop of
`calculate_hand_value`: converts up to `aces` aces from 1 to 11 greedily. -/
def softLoop : Nat → Nat → Nat
  | 0, v => v
  | n + 1, v => if v + 10 ≤ 21 then softLoop n (v + 10) else v

/-- `BlackjackGame.calculate_hand_value` (src/games/blackjack.py:46-67):
returns `(value, soft_value)` where `value` counts every ace as 1 and
`soft_value` upgrades aces to 11 while that does not bust. -/
def calculate_hand_value (hand : List BJCard) : Nat × Nat :=
  let value := hand.foldl
    (fun acc c => acc + (if c.rank = BJRank.A then 1 else c.rank.get_value)) 0
  let aces := (hand.filter (fun c => c.rank = BJRank.A)).length
  (value, softLoop aces value)

/-- `BlackjackGame.is_blackjack`: exactly two cards whose soft value is 21. -/
def is_blackjack (hand : List BJCard) : Prop :=
  hand.length = 2 ∧ (calculate_hand_value hand).2 = 21

instance (hand : List BJCard) : Decidable (is_blackjack hand) := by
  unfold is_blackjack; infer_instance

/-- `BlackjackGame.is_bust`: the hard value exceeds 21. -/
def is_bust (hand : List BJCard) : Prop :=
  21 < (calculate_hand_value hand).1

instance (hand : List BJCard) : Decidable (is_bust hand) := by
  unfold is_bust; infer_instance

/-- `BlackjackGame.get_best_value`: the soft value when it does not bust,
otherwise the hard value. -/
def get_best_value (hand : List BJCard) : Nat :=
  let v := calculate_hand_value hand
  if v.2 ≤ 21 then v.2 else v.1

/-- The dealer loop of `BlackjackView.play_dealer_turn`
(src/games/blackjack.py:238-239): `while get_best_value(dealer_hand) < 17:
dealer_hand.append(deck.pop())`.  The deck list is in draw order (the Python
code pops the shuffled list from its end); an exhausted deck stops the loop
(the Python code would raise, which no reachable game state does with a
312-card shoe). -/
def dealerPlay : List BJCard → List BJCard → List BJCard × List BJCard
  | hand, [] => (hand, [])
  | hand, c :: rest =>
    if 17 ≤ get_best_value hand then (hand, c :: rest)
    else dealerPlay (hand ++ [c]) rest

/-- The comparison at the end of `BlackjackView.play_dealer_turn`
(src/games/blackjack.py:241-276): dealer bust pays the bet, then best values
are compared; greater wins the bet, lesser loses, equal pushes. -/
def resolve_stand (player dealer deck : List BJCard) (bet : Nat) : GameOutcome :=
  let dealer2 := (dealerPlay dealer deck).1
  let player_value := get_best_value player
  let dealer_value := get_best_value dealer2
  if is_bust dealer2 then { won := true, winnings := (bet : Int), push := false }
  else if player_value > dealer_value then
    { won := true, winnings := (bet : Int), push := false }
  else if player_value < dealer_value then
    { won := false, winnings := 0, push := false }
  else { won := false, winnings := 0, push := true }

/-- The state reached by `BlackjackGame.play_game` after dealing but before
any button press. -/
inductive BJPhase
  | resolved (outcome : GameOutcome)
  | playerTurn (player dealer deck : List BJCard)
deriving DecidableEq

/-- The opening of `BlackjackGame.play_game` (src/games/blackjack.py:104-159):
deal two cards each (player first), then the immediate-blackjack checks.  The
player-blackjack payout is `int(bet_amount * 1.5)`; for a non-negative int
`bet` the float product is exact (1.5 is dyadic) and `int` truncates toward
zero, i.e. `3 * bet / 2` in `Nat`.  `none` models dealing from a deck of
fewer than four cards (impossible with the 312-card shoe). -/
def bjInitialPhase (deck : List BJCard) (bet : Nat) : Option BJPhase :=
  match deck with
  | c0 :: c1 :: c2 :: c3 :: rest =>
    some
      (if is_blackjack [c0, c1] ∧ is_blackjack [c2, c3] then
        .resolved { won := false, winnings := 0, push := true }
      else if is_blackjack [c0, c1] then
        .resolved { won := true, winnings := ((3 * bet) / 2 : Nat), push := false }
      else if is_blackjack [c2, c3] then
        .resolved { won := false, winnings := 0, push := false }
      else .playerTurn [c0, c1] [c2, c3] rest)
  | _ => none

/-! ## Generic list helpers shared by the engines -/

/-- Occurrence count of `a` in `l` (as counted via a Python dict). -/
def countOf {α : Type} [DecidableEq α] (a : α) (l : List α) : Nat :=
  (l.filter (fun x => x = a)).length

/-- Keys of a Python dict built by insertion: the list of first occurrences,
in order of first appearance. -/
def firstOccsAux {α : Type} [DecidableEq α] : List α → List α → List α
  | [], _ => []
  | x :: xs, seen =>
    if x ∈ seen then firstOccsAux xs seen else x :: firstOccsAux xs (x :: seen)

def firstOccs {α : Type} [DecidableEq α] (l : List α) : List α :=
  firstOccsAux l []

/-! ## Slots (`src/games/slots.py`) -/

inductive SlotSym
  | Diamond
  | Bell
  | Grapes
  | Orange
  | Lemon
  | Cherry
  | Red
  | Yellow
deriving DecidableEq

/-- The `'3'` entries of `SlotsGame.payouts`, as exact rationals `num/den`
(the Python floats 0.75 and 0.5 are dyadic, hence exact). -/
def payout3 : SlotSym → Nat × Nat
  | .Diamond => (500, 1)
  | .Bell => (25, 1)
  | .Grapes => (5, 1)
  | .Orange => (3, 1)
  | .Lemon => (2, 1)
  | .Cherry => (1, 1)
  | .Red => (3, 4)
  | .Yellow => (1, 2)

/-- The `'2'` entries of `SlotsGame.payouts`. -/
def payout2 : SlotSym → Nat × Nat
  | .Diamond => (25, 1)
  | .Bell => (10, 1)
  | .Grapes => (3, 1)
  | .Orange => (2, 1)
  | .Lemon => (1, 1)
  | .Cherry => (1, 1)
  | .Red => (1, 1)
  | .Yellow => (3, 4)

/-- `int(bet_amount * payouts[symbol]['3'])`: exact product then truncation,
i.e. floor division for non-negative values. -/
def cand3 (bet : Nat) (s : SlotSym) : Nat := bet * (payout3 s).1 / (payout3 s).2

/-- `int(bet_amount * payouts[symbol]['2'])`. -/
def cand2 (bet : Nat) (s : SlotSym) : Nat := bet * (payout2 s).1 / (payout2 s).2

/-- The symbol loop of `SlotsGame.calculate_payout` (src/games/slots.py:62-80)
over the counted symbols in dict (first-occurrence) order, threading
`best_payout`.  Every symbol has both a `'3'` and a `'2'` payout entry, so the
`in self.payouts` membership tests are always true. -/
def calcLoop (reels : List SlotSym) (bet : Nat) : List SlotSym → Nat → Nat
  | [], best => best
  | s :: rest, best =>
    if 3 ≤ countOf s reels then
      calcLoop reels bet rest (if best < cand3 bet s then cand3 bet s else best)
    else if 2 ≤ countOf s reels ∧ best = 0 then
      calcLoop reels bet rest (if best < cand2 bet s then cand2 bet s else best)
    else calcLoop reels bet rest best

/-- `SlotsGame.calculate_payout` (src/games/slots.py:50-89), payout value. -/
def calculate_payout (reels : List SlotSym) (bet : Nat) : Nat :=
  calcLoop reels bet (firstOccs reels) 0

/-- The outcome dictionary `play_game` builds from the payout
(src/games/slots.py:166-172): `won` iff the payout is positive. -/
def slots_outcome (reels : List SlotSym) (bet : Nat) : GameOutcome :=
  { won := decide (0 < calculate_payout reels bet),
    winnings := (calculate_payout reels bet : Int),
    push := false }

/-- The candidate a symbol contributes per the candidate notion of the claim:
its 3-match value when it has three or more, else its 2-match value when it
has two, else nothing. -/
def rawCand (reels : List SlotSym) (bet : Nat) (s : SlotSym) : Nat :=
  if 3 ≤ countOf s reels then cand3 bet s
  else if 2 ≤ countOf s reels then cand2 bet s
  else 0

/-- Maximum over the 3-match candidates of the listed symbols. -/
def maxThreeAux (reels : List SlotSym) (bet : Nat) : List SlotSym → Nat
  | [] => 0
  | s :: rest =>
    max (if 3 ≤ countOf s reels then cand3 bet s else 0) (maxThreeAux reels bet rest)

/-- The first positive candidate in scan order, kept only when it is a
2-match candidate (a positive 3-match candidate closes the 2-match gate
without itself being returned here). -/
def firstTwoAux (reels : List SlotSym) (bet : Nat) : List SlotSym → Nat
  | [] => 0
  | s :: rest =>
    if 0 < rawCand reels bet s then
      (if 3 ≤ countOf s reels then 0 else rawCand reels bet s)
    else firstTwoAux reels bet rest

/-- The payout the claim (C2) describes, following its words: every 3-match
symbol contributes `bet × multiplier`; a 2-match symbol contributes only when
no 3-or-more match produced a nonzero payout; the result is the maximum
candidate, 0 when there is none. -/
def claimSlotsPayout (reels : List SlotSym) (bet : Nat) : Nat :=
  let syms := firstOccs reels
  let three_produced : Bool :=
    syms.any (fun s => decide (3 ≤ countOf s reels) && decide (0 < cand3 bet s))
  (syms.map (fun s =>
    if 3 ≤ countOf s reels then cand3 bet s
    else if 2 ≤ countOf s reels ∧ three_produced = false then cand2 bet s
    else 0)).foldr max 0

/-! ## Poker (`src/games/poker.py`) -/

inductive PRank
  | R2
  | R3
  | R4
  | R5
  | R6
  | R7
  | R8
  | R9
  | R10
  | J
  | Q
  | K
  | A
deriving DecidableEq

/-- `Card.get_rank_value` (poker): 2..10 face value, J=11, Q=12, K=13, A=14. -/
def PRank.value : PRank → Nat
  | .R2 => 2
  | .R3 => 3
  | .R4 => 4
  | .R5 => 5
  | .R6 => 6
  | .R7 => 7
  | .R8 => 8
  | .R9 => 9
  | .R10 => 10
  | .J => 11
  | .Q => 12
  | .K => 13
  | .A => 14

structure PCard where
  suit : Suit
  rank : PRank
deriving DecidableEq

def PCard.value (c : PCard) : Nat := c.rank.value

inductive HandRank
  | HIGH_CARD
  | PAIR
  | TWO_PAIR
  | THREE_OF_A_KIND
  | STRAIGHT
  | FLUSH
  | FULL_HOUSE
  | FOUR_OF_A_KIND
  | STRAIGHT_FLUSH
  | ROYAL_FLUSH
deriving DecidableEq

/-- The enum values 1..10 of `HandRank` in the source. -/
def HandRank.val : HandRank → Nat
  | .HIGH_CARD => 1
  | .PAIR => 2
  | .TWO_PAIR => 3
  | .THREE_OF_A_KIND => 4
  | .STRAIGHT => 5
  | .FLUSH => 6
  | .FULL_HOUSE => 7
  | .FOUR_OF_A_KIND => 8
  | .STRAIGHT_FLUSH => 9
  | .ROYAL_FLUSH => 10

/-- `self.bonus_payouts` (src/games/poker.py:68-78); `none` for the missing
`HIGH_CARD` key. -/
def bonus_payouts : HandRank → Option Nat
  | .ROYAL_FLUSH => some 1000
  | .STRAIGHT_FLUSH => some 200
  | .FOUR_OF_A_KIND => some 30
  | .FULL_HOUSE => some 8
  | .FLUSH => some 6
  | .STRAIGHT => some 5
  | .THREE_OF_A_KIND => some 4
  | .TWO_PAIR => some 3
  | .PAIR => some 2
  | .HIGH_CARD => none

/-- Stable insertion for `sorted(cards, key=value, reverse=True)`: a card goes
before the first strictly smaller one, so equal values keep input order. -/
def insertValueDesc (c : PCard) : List PCard → List PCard
  | [] => [c]
  | d :: ds => if d.value ≤ c.value then c :: d :: ds else d :: insertValueDesc c ds

def sortValueDesc (l : List PCard) : List PCard := l.foldr insertValueDesc []

/-- `all(values[i] - values[i+1] == 1 ...)` on the descending value list. -/
def consecDesc : List Nat → Bool
  | [] => true
  | [_] => true
  | a :: b :: rest => decide (a = b + 1) && consecDesc (b :: rest)

/-- Stable insertion for `sorted(value_counts.items(), key=(count, value),
reverse=True)`; keys are distinct so stability is irrelevant here.  Items are
`(value, count)` pairs, compared by count first. -/
def insertCountDesc (p : Nat × Nat) : List (Nat × Nat) → List (Nat × Nat)
  | [] => [p]
  | q :: qs =>
    if q.2 < p.2 ∨ (q.2 = p.2 ∧ q.1 ≤ p.1) then p :: q :: qs
    else q :: insertCountDesc p qs

def sortCountDesc (l : List (Nat × Nat)) : List (Nat × Nat) := l.foldr insertCountDesc []

/-- `counts[i]` with an out-of-range default; every branch of the evaluator
only indexes positions that exist for a 5-card hand. -/
def nthCount (l : List (Nat × Nat)) (i : Nat) : Nat × Nat := l.getD i (0, 0)

/-- The body of `PokerGame.evaluate_hand` (src/games/poker.py:97-147) for a
5-card list: rank plus tie-break values. -/
def evaluateHand5 (cards : List PCard) : HandRank × List Nat :=
  let sorted_cards := sortValueDesc cards
  let values0 := sorted_cards.map PCard.value
  let suits := sorted_cards.map PCard.suit
  let is_flush := (firstOccs suits).length = 1
  let wheel := values0 = [14, 5, 4, 3, 2]
  let values := if wheel then [5, 4, 3, 2, 1] else values0
  let is_straight := wheel ∨ consecDesc values0 = true
  let counts := sortCountDesc ((firstOccs values).map (fun v => (v, countOf v values)))
  if is_straight ∧ is_flush then
    (if values = [14, 13, 12, 11, 10] then (HandRank.ROYAL_FLUSH, values)
     else (HandRank.STRAIGHT_FLUSH, values))
  else if (nthCount counts 0).2 = 4 then
    (HandRank.FOUR_OF_A_KIND, [(nthCount counts 0).1, (nthCount counts 1).1])
  else if (nthCount counts 0).2 = 3 ∧ (nthCount counts 1).2 = 2 then
    (HandRank.FULL_HOUSE, [(nthCount counts 0).1, (nthCount counts 1).1])
  else if is_flush then (HandRank.FLUSH, values)
  else if is_straight then (HandRank.STRAIGHT, values)
  else if (nthCount counts 0).2 = 3 then
    (HandRank.THREE_OF_A_KIND,
      [(nthCount counts 0).1, (nthCount counts 1).1, (nthCount counts 2).1])
  else if (nthCount counts 0).2 = 2 ∧ (nthCount counts 1).2 = 2 then
    (HandRank.TWO_PAIR,
      [(nthCount counts 0).1, (nthCount counts 1).1, (nthCount counts 2).1])
  else if (nthCount counts 0).2 = 2 then
    (HandRank.PAIR,
      [(nthCount counts 0).1, (nthCount counts 1).1, (nthCount counts 2).1,
       (nthCount counts 3).1])
  else (HandRank.HIGH_CARD, values)

/-- `PokerGame.evaluate_hand`: raises `ValueError` unless given exactly 5
cards (src/games/poker.py:99-100), modelled as `Except.error`. -/
def evaluate_hand (cards : List PCard) : Except String (HandRank × List Nat) :=
  if cards.length ≠ 5 then Except.error "Hand must contain exactly 5 cards"
  else Except.ok (evaluateHand5 cards)

/-- `itertools.combinations l 5`-style enumeration: all sublists of the given
length, elements kept in original order, lexicographic by position. -/
def combos {α : Type} : Nat → List α → List (List α)
  | 0, _ => [[]]
  | _ + 1, [] => []
  | n + 1, x :: xs => (combos n xs).map (fun c => x :: c) ++ combos (n + 1) xs

/-- Python list comparison `values > best_values` on ints (lexicographic,
longer list wins on equal prefix). -/
def listGTNat : List Nat → List Nat → Bool
  | [], [] => false
  | _ :: _, [] => true
  | [], _ :: _ => false
  | a :: as_, b :: bs =>
    if b < a then true else if a < b then false else listGTNat as_ bs

/-- One step of the best-hand loop of `PokerGame.get_best_hand`
(src/games/poker.py:161-168). -/
def betterPick (cur : Option (List PCard × HandRank × List Nat)) (combo : List PCard) :
    Option (List PCard × HandRank × List Nat) :=
  let e := evaluateHand5 combo
  match cur with
  | none => some (combo, e.1, e.2)
  | some (bh, br, bv) =>
    if br.val < e.1.val ∨ (e.1.val = br.val ∧ listGTNat e.2 bv = true) then
      some (combo, e.1, e.2)
    else some (bh, br, bv)

/-- The loop of `get_best_hand` over all 21 five-card combinations of 7
cards; the default is unreachable because `combos 5` of a 7-card list is
nonempty. -/
def bestHandCore (all_cards : List PCard) : List PCard × HandRank × List Nat :=
  ((combos 5 all_cards).foldl betterPick none).getD ([], HandRank.HIGH_CARD, [])

/-- `PokerGame.get_best_hand` (src/games/poker.py:149-170): raises
`ValueError` unless hole + community total exactly 7 cards. -/
def get_best_hand (hole_cards community_cards : List PCard) :
    Except String (List PCard × HandRank × List Nat) :=
  let all_cards := hole_cards ++ community_cards
  if all_cards.length ≠ 7 then
    Except.error "Must have exactly 7 cards (2 hole + 5 community)"
  else Except.ok (bestHandCore all_cards)

/-- The state the fold button sees: remaining deck (in draw order), the
hole cards of the player, the community cards dealt so far, and both bets. -/
structure PokerFoldState where
  deck : List PCard
  player_hole : List PCard
  community : List PCard
  ante : Nat
  bonus : Nat

/-- `PokerView.fold_button` (src/games/poker.py:371-402), the `game_result`
it stores.  With a bonus bet and at least 3 community cards, the board is
padded to 5 cards from the deck and the best hand settled against
`bonus_payouts`; a winning bonus stores `bonus_winnings - ante_amount` (a
Python int, possibly negative).  Any exception from `get_best_hand` would
propagate, modelled by `Except.error`. -/
def fold_resolve (s : PokerFoldState) : Except String GameOutcome :=
  if 0 < s.bonus then
    if 3 ≤ s.community.length then
      match get_best_hand s.player_hole
          (s.community ++ s.deck.take (5 - s.community.length)) with
      | Except.error e => Except.error e
      | Except.ok (_, rank, _) =>
        match bonus_payouts rank with
        | some pay =>
          Except.ok { won := true,
                      winnings := (s.bonus : Int) * pay - (s.ante : Int),
                      push := false }
        | none => Except.ok { won := false, winnings := 0, push := false }
    else Except.ok { won := false, winnings := 0, push := false }
  else Except.ok { won := false, winnings := 0, push := false }

/-- The best-hand rank the fold settlement evaluates on the padded board. -/
def bestRankAfterFold (s : PokerFoldState) : HandRank :=
  (bestHandCore (s.player_hole ++ (s.community ++ s.deck.take (5 - s.community.length)))).2.1

/-! ## Roulette (`src/games/roulette.py`)

Python strings are `List Char`; `str.strip`, `str.isdigit`, `str.split` and
`int()` are modelled character-wise over the exact Python whitespace set and
the digit/decimal character classes described at each definition —
`str.isdigit()` and `int()` disagree on digit-only characters such as `²`,
which the comma branch turns into a `ValueError`.  `str.lower` is modelled
on ASCII (and as the identity elsewhere, which is exact on every character
the statements below quantify over or evaluate at). -/

abbrev PyStr := List Char

/-- `str.isspace()` on one character: the full Unicode whitespace set Python
strips (exactly the 29 characters for which `str.isspace()` holds). -/
def isSpaceCh (c : Char) : Bool :=
  c == '\t' || c == '\n' || c == '\x0b' || c == '\x0c' || c == '\r' ||
  c == '\x1c' || c == '\x1d' || c == '\x1e' || c == '\x1f' || c == ' ' ||
  c == '\x85' || c == '\xa0' || c == '\u1680' ||
  (8192 ≤ c.toNat && c.toNat ≤ 8202) ||
  c == '\u2028' || c == '\u2029' || c == '\u202f' || c == '\u205f' || c == '\u3000'

/-- `str.strip()`: drop whitespace from both ends. -/
def pyStrip (s : PyStr) : PyStr :=
  ((s.dropWhile isSpaceCh).reverse.dropWhile isSpaceCh).reverse

/-- `str.lower()` on one ASCII character. -/
def lowerCh (c : Char) : Char :=
  if 'A' ≤ c ∧ c ≤ 'Z' then Char.ofNat (c.toNat + 32) else c

def pyLower (s : PyStr) : PyStr := s.map lowerCh

/-- The decimal value `int()` assigns to a character, when it is a Unicode
decimal digit (Numeric_Type=Decimal): the ASCII digits `0`-`9` (codepoints
48-57) and, of the further decimal ranges of Unicode, the Arabic-Indic
digits `٠`-`٩` (codepoints 1632-1641).  The remaining decimal scripts behave
exactly like the Arabic-Indic block and never occur in any statement below,
so they are left out of the model. -/
def decDigitVal? (c : Char) : Option Nat :=
  if 48 ≤ c.toNat ∧ c.toNat ≤ 57 then some (c.toNat - 48)
  else if 1632 ≤ c.toNat ∧ c.toNat ≤ 1641 then some (c.toNat - 1632)
  else none

/-- One character of `str.isdigit()`: true on every decimal digit and on the
digit-only characters (Numeric_Type=Digit) such as the super- and subscript
digits, which `int()` nevertheless rejects.  Of the digit-only characters the
model lists the Latin-1 superscripts and the superscript and subscript
blocks; the remaining ones behave identically and never occur in any
statement below. -/
def isDigitCh (c : Char) : Bool :=
  (decDigitVal? c).isSome ||
    c ∈ ['¹', '²', '³', '⁰', '⁴', '⁵', '⁶', '⁷', '⁸', '⁹',
         '₀', '₁', '₂', '₃', '₄', '₅', '₆', '₇', '₈', '₉']

/-- `str.isdigit()`: nonempty and all digits. -/
def pyIsDigit (s : PyStr) : Bool := !s.isEmpty && s.all isDigitCh

def digitVal (c : Char) : Nat := c.toNat - 48

/-- Decimal value of an all-ASCII-digit string. -/
def strToNat (s : PyStr) : Nat := s.foldl (fun acc c => 10 * acc + digitVal c) 0

def decValAux : PyStr → Nat → Option Nat
  | [], acc => some acc
  | c :: cs, acc =>
    match decDigitVal? c with
    | some d => decValAux cs (10 * acc + d)
    | none => none

/-- `int(s)` on a bare token: its decimal value when `s` is nonempty and all
its characters are decimal digits, `none` (a `ValueError`) otherwise — in
particular on a digit-only character such as `²`, which passes
`str.isdigit()` but has no decimal value. -/
def decStrVal? (s : PyStr) : Option Nat :=
  match s with
  | [] => none
  | _ => decValAux s 0

/-- `str.split(sep)` for a one-character separator (empty pieces kept). -/
def splitOnCh (sep : Char) : PyStr → List PyStr
  | [] => [[]]
  | c :: cs =>
    match splitOnCh sep cs with
    | [] => [[]]
    | t :: ts => if c = sep then [] :: t :: ts else (c :: t) :: ts

/-- `int(s)` for the pieces the range branch feeds it: optional surrounding
whitespace, optional `+` sign, then a decimal-digit string; `none` models
`ValueError` (which the `try` of the branch turns into a fall-through).  A
`-` sign cannot occur in a piece of a split on `-`, and the underscore
separators `int()` also accepts never occur in any statement below. -/
def pyIntNat (s : PyStr) : Option Nat :=
  match pyStrip s with
  | [] => none
  | c :: cs => if c = '+' then decStrVal? cs else decStrVal? (c :: cs)

inductive BetType
  | number
  | color
  | half
  | dozen
  | column
  | parity
  | multiple
  | range
  | invalid
deriving DecidableEq

structure BetInfo where
  type : BetType
  numbers : Finset ℕ
  payout : Nat
deriving DecidableEq

def invalidBet : BetInfo := { type := .invalid, numbers := ∅, payout := 0 }

/-- `self.red_numbers` (src/games/roulette.py:18). -/
def redNumbers : Finset ℕ :=
  {1, 3, 5, 7, 9, 12, 14, 16, 18, 19, 21, 23, 25, 27, 30, 32, 34, 36}

/-- `self.black_numbers` (src/games/roulette.py:19). -/
def blackNumbers : Finset ℕ :=
  {2, 4, 6, 8, 10, 11, 13, 15, 17, 20, 22, 24, 26, 28, 29, 31, 33, 35}

/-- `self.green_numbers` (37 stands for "00"). -/
def greenNumbers : Finset ℕ := {0, 37}

/-- One iteration of the token loop of the comma branch
(src/games/roulette.py:95-102): strip the token, `"00"` becomes 37, then
`num_str.isdigit()` guards `int(num_str)`; a digit-only token such as `²`
passes the guard but makes `int()` raise `ValueError`, modelled as `none` —
the exception aborts the whole `try` block.  Decimal values in 0..36 are
added, everything else is skipped. -/
def tokenInsert (acc : Finset ℕ) (tok : PyStr) : Option (Finset ℕ) :=
  if pyStrip tok = ['0', '0'] then some (insert 37 acc)
  else if pyIsDigit (pyStrip tok) = true then
    (match decStrVal? (pyStrip tok) with
     | some n => some (if n ≤ 36 then insert n acc else acc)
     | none => none)
  else some acc

/-- The token loop of the comma branch: `none` when `int()` raised on some
token, aborting the `try`. -/
def commaCollect : List PyStr → Finset ℕ → Option (Finset ℕ)
  | [], acc => some acc
  | t :: ts, acc =>
    match tokenInsert acc t with
    | some acc2 => commaCollect ts acc2
    | none => none

/-- The value of a comma-list token per the wording of the claim: a stripped
token counts iff it is the string `"00"` (worth 37) or a digit string whose
decimal value is at most 36. -/
def validTokenNum (tok : PyStr) : Option Nat :=
  if pyStrip tok = ['0', '0'] then some 37
  else
    match decStrVal? (pyStrip tok) with
    | some n => if n ≤ 36 then some n else none
    | none => none

/-- The comma branch of `parse_prediction` (src/games/roulette.py:92-110):
a `ValueError` inside the token loop aborts the `try` and falls through to
the final invalid return, as do too many distinct numbers or none at all;
otherwise a `multiple` bet with `max(1, 36 // len - 1)` payout. -/
def commaBranch (p : PyStr) : BetInfo :=
  match commaCollect (splitOnCh ',' p) ∅ with
  | none => invalidBet
  | some nums =>
    if 18 < nums.card then invalidBet
    else if 0 < nums.card then
      { type := .multiple, numbers := nums, payout := max 1 (36 / nums.card - 1) }
    else invalidBet

/-- The range branch of `parse_prediction` (src/games/roulette.py:113-125):
split on `-`, parse two ints, require `1 <= start <= end <= 36`, reject more
than 18 numbers, payout `max(1, 36 // count - 1)`.  Parse failures and wrong
piece counts fall through to the final invalid return. -/
def rangeBranch (p : PyStr) : BetInfo :=
  match splitOnCh '-' p with
  | [s1, s2] =>
    match pyIntNat s1, pyIntNat s2 with
    | some a, some b =>
      if 1 ≤ a ∧ a ≤ b ∧ b ≤ 36 then
        (let numbers := Finset.Icc a b
         if 18 < numbers.card then invalidBet
         else { type := .range, numbers := numbers, payout := max 1 (36 / numbers.card - 1) })
      else invalidBet
    | _, _ => invalidBet
  | _ => invalidBet

/-- `RouletteGame.parse_prediction` (src/games/roulette.py:41-127) after the
initial `prediction.lower().strip()` normalisation: the full `if/elif`
dispatch.  A taken branch whose body does not return falls through to the
final invalid return, which the nested `else` arms reproduce.  In the
single-number branch a digit-only prediction such as `²` makes the uncaught
`int()` raise out of `parse_prediction` into the `except` of `play_game`,
which rejects the bet without a spin; the model folds that into the invalid
bet (no statement below quantifies over this branch). -/
def parseCore (p : PyStr) : BetInfo :=
  if p = ['0'] then { type := .number, numbers := {0}, payout := 35 }
  else if p = ['0', '0'] ∨ p = ['3', '7'] then
    { type := .number, numbers := {37}, payout := 35 }
  else if pyIsDigit p = true then
    (match decStrVal? p with
     | some num =>
       if 1 ≤ num ∧ num ≤ 36 then { type := .number, numbers := {num}, payout := 35 }
       else invalidBet
     | none => invalidBet)
  else if p = ['r', 'e', 'd'] then { type := .color, numbers := redNumbers, payout := 1 }
  else if p = ['b', 'l', 'a', 'c', 'k'] then
    { type := .color, numbers := blackNumbers, payout := 1 }
  else if p = ['g', 'r', 'e', 'e', 'n'] then
    { type := .color, numbers := greenNumbers, payout := 17 }
  else if p = ['1', 's', 't', 'h', 'a', 'l', 'f'] ∨ p = ['1', '-', '1', '8'] ∨
      p = ['l', 'o', 'w'] then
    { type := .half, numbers := Finset.Icc 1 18, payout := 1 }
  else if p = ['2', 'n', 'd', 'h', 'a', 'l', 'f'] ∨ p = ['1', '9', '-', '3', '6'] ∨
      p = ['h', 'i', 'g', 'h'] then
    { type := .half, numbers := Finset.Icc 19 36, payout := 1 }
  else if p = ['1', 's', 't', '1', '2'] ∨ p = ['1', '-', '1', '2'] then
    { type := .dozen, numbers := Finset.Icc 1 12, payout := 2 }
  else if p = ['2', 'n', 'd', '1', '2'] ∨ p = ['1', '3', '-', '2', '4'] then
    { type := .dozen, numbers := Finset.Icc 13 24, payout := 2 }
  else if p = ['3', 'r', 'd', '1', '2'] ∨ p = ['2', '5', '-', '3', '6'] then
    { type := .dozen, numbers := Finset.Icc 25 36, payout := 2 }
  else if p = ['1', 's', 't', 'c', 'o', 'l'] ∨ p = ['c', 'o', 'l', '1'] then
    { type := .column, numbers := {1, 4, 7, 10, 13, 16, 19, 22, 25, 28, 31, 34}, payout := 2 }
  else if p = ['2', 'n', 'd', 'c', 'o', 'l'] ∨ p = ['c', 'o', 'l', '2'] then
    { type := .column, numbers := {2, 5, 8, 11, 14, 17, 20, 23, 26, 29, 32, 35}, payout := 2 }
  else if p = ['3', 'r', 'd', 'c', 'o', 'l'] ∨ p = ['c', 'o', 'l', '3'] then
    { type := .column, numbers := {3, 6, 9, 12, 15, 18, 21, 24, 27, 30, 33, 36}, payout := 2 }
  else if p = ['e', 'v', 'e', 'n'] then
    { type := .parity,
      numbers := {2, 4, 6, 8, 10, 12, 14, 16, 18, 20, 22, 24, 26, 28, 30, 32, 34, 36},
      payout := 1 }
  else if p = ['o', 'd', 'd'] then
    { type := .parity,
      numbers := {1, 3, 5, 7, 9, 11, 13, 15, 17, 19, 21, 23, 25, 27, 29, 31, 33, 35},
      payout := 1 }
  else if ',' ∈ p then commaBranch p
  else if '-' ∈ p ∧ p.head? ≠ some '-' then rangeBranch p
  else invalidBet

/-- `RouletteGame.parse_prediction`, including the normalisation. -/
def parse_prediction (pred : PyStr) : BetInfo :=
  parseCore (pyLower (pyStrip pred))

/-- The decision part of `RouletteGame.play_game` (src/games/roulette.py:
133-172): invalid bets return the error outcome without using the spin;
otherwise win iff the spin is among the targets, winnings `bet * payout`. -/
def roulette_outcome (pred : PyStr) (bet spin : Nat) : GameOutcome :=
  let info := parse_prediction pred
  match info.type with
  | .invalid => { won := false, winnings := 0, push := false }
  | _ =>
    if spin ∈ info.numbers then
      { won := true, winnings := (bet * info.payout : Nat), push := false }
    else { won := false, winnings := 0, push := false }

/-- A digit character; only applied to arguments below 10. -/
def digitChar : Nat → Char
  | 0 => '0'
  | 1 => '1'
  | 2 => '2'
  | 3 => '3'
  | 4 => '4'
  | 5 => '5'
  | 6 => '6'
  | 7 => '7'
  | 8 => '8'
  | 9 => '9'
  | _ + 10 => '?'

/-- Decimal rendering of a number below 100, as the user would type it. -/
def digitsOf (n : Nat) : PyStr :=
  if n < 10 then [digitChar n] else [digitChar (n / 10), digitChar (n % 10)]

/-- The prediction string `"a-b"`. -/
def rangeStr (a b : Nat) : PyStr := digitsOf a ++ '-' :: digitsOf b

instance {α β : Type} [DecidableEq α] [DecidableEq β] : DecidableEq (Except α β) := fun a b =>
  match a, b with
  | .error x, .error y => decidable_of_iff (x = y) (by simp)
  | .ok x, .ok y => decidable_of_iff (x = y) (by simp)
  | .error _, .ok _ => isFalse (by simp)
  | .ok _, .error _ => isFalse (by simp)

/-! ## Concrete poker fold states used below -/

/-- Fold at the flop holding a pair of kings: ante 100, bonus 10.  The padded
board gives a best hand of one pair, whose bonus payout (2:1) is 20 coins,
less than the ante. -/
def stBug : PokerFoldState :=
  { deck := [⟨.Spades, .R3⟩, ⟨.Clubs, .R7⟩],
    player_hole := [⟨.Spades, .K⟩, ⟨.Hearts, .K⟩],
    community := [⟨.Clubs, .R2⟩, ⟨.Diamonds, .R5⟩, ⟨.Hearts, .R9⟩],
    ante := 100, bonus := 10 }

/-- Pre-flop fold holding a pair of kings with a live bonus bet of 10. -/
def stPre : PokerFoldState :=
  { deck := [⟨.Clubs, .R2⟩, ⟨.Diamonds, .R5⟩, ⟨.Hearts, .R9⟩, ⟨.Spades, .R3⟩, ⟨.Clubs, .R7⟩],
    player_hole := [⟨.Spades, .K⟩, ⟨.Hearts, .K⟩],
    community := [],
    ante := 10, bonus := 10 }

/-- Fold at the flop with ante 10 and bonus 10, pair of kings. -/
def stW : PokerFoldState :=
  { deck := [⟨.Spades, .R3⟩, ⟨.Clubs, .R7⟩],
    player_hole := [⟨.Spades, .K⟩, ⟨.Hearts, .K⟩],
    community := [⟨.Clubs, .R2⟩, ⟨.Diamonds, .R5⟩, ⟨.Hearts, .R9⟩],
    ante := 10, bonus := 10 }

/-! ## General helper lemmas -/

theorem ifmax (a b : Nat) : (if a < b then b else a) = max a b := by
  rcases Nat.lt_or_ge a b with h | h
  · simp [if_pos h, Nat.max_eq_right (Nat.le_of_lt h)]
  · simp [if_neg (Nat.not_lt.mpr h), Nat.max_eq_left h]

theorem ne_of_mem_not_mem {α : Type} {x : α} {s t : List α} (hs : x ∈ s) (ht : x ∉ t) :
    s ≠ t := fun h => ht (h ▸ hs)

/-! ## C7/C8: economy ledger -/

/-- C7: `subtract_balance` clamps at 0 so a non-negative balance never goes
negative, and an `add_balance` of `a` followed by a `subtract_balance` of the
same `a` restores the original (non-negative) balance. -/
theorem economy_debit_clamp_roundtrip (u : UserData) (a : Int)
    (hu : 0 ≤ u.balance) (ha : 0 ≤ a) :
    0 ≤ (subtract_balance u a).balance ∧
    (subtract_balance (add_balance u a) a).balance = u.balance := by
  constructor
  · exact le_max_left 0 _
  · simp only [subtract_balance, add_balance]
    omega

/-- Witness for C7 at balance 100, amount 30. -/
theorem economy_debit_clamp_roundtrip_witness :
    0 ≤ (subtract_balance ⟨100, 0, 0⟩ 30).balance ∧
    (subtract_balance (add_balance ⟨100, 0, 0⟩ 30) 30).balance = 100 :=
  economy_debit_clamp_roundtrip ⟨100, 0, 0⟩ 30 (by decide) (by decide)

/-- C8: `add_balance` grows `total_winnings` by exactly the amount and
`subtract_balance` grows `total_losses` by exactly the amount, even when the
balance deduction is clamped — debiting 20 from a balance of 5 removes only 5
coins but records 20 of losses. -/
theorem economy_stats_frame (u : UserData) (a : Int) :
    (add_balance u a).total_winnings = u.total_winnings + a ∧
    (add_balance u a).total_losses = u.total_losses ∧
    (add_balance u a).balance = u.balance + a ∧
    (subtract_balance u a).total_losses = u.total_losses + a ∧
    (subtract_balance u a).total_winnings = u.total_winnings ∧
    (subtract_balance ⟨5, 0, 0⟩ 20).total_losses = 20 ∧
    (subtract_balance ⟨5, 0, 0⟩ 20).balance = 0 :=
  ⟨rfl, rfl, rfl, rfl, rfl, by decide, by decide⟩

/-! ## C4/C5: blackjack -/

/-- The dealer loop draws the unique prefix of the deck on which the best
value stays below 17, stopping as soon as 17 is reached (or the deck runs
out). -/
theorem dealerPlay_spec (deck : List BJCard) : ∀ hand : List BJCard,
    ∃ k, k ≤ deck.length ∧
      dealerPlay hand deck = (hand ++ deck.take k, deck.drop k) ∧
      (∀ j, j < k → get_best_value (hand ++ deck.take j) < 17) ∧
      (17 ≤ get_best_value (hand ++ deck.take k) ∨ k = deck.length) := by
  induction deck with
  | nil =>
    intro hand
    exact ⟨0, Nat.le_refl 0, by simp [dealerPlay], by omega, Or.inr rfl⟩
  | cons c rest ih =>
    intro hand
    by_cases h : 17 ≤ get_best_value hand
    · exact ⟨0, Nat.zero_le _, by simp [dealerPlay, if_pos h], by omega,
        Or.inl (by simpa using h)⟩
    · obtain ⟨k, hk, heq, hlt, hstop⟩ := ih (hand ++ [c])
      refine ⟨k + 1, by simpa using Nat.succ_le_succ hk, ?_, ?_, ?_⟩
      · rw [show dealerPlay hand (c :: rest) = dealerPlay (hand ++ [c]) rest from
          by simp [dealerPlay, if_neg h], heq]
        simp [List.take_succ_cons]
      · intro j hj
        cases j with
        | zero => simpa using Nat.lt_of_not_le h
        | succ j' =>
          have := hlt j' (by omega)
          simpa [List.take_succ_cons, List.append_assoc] using this
      · rcases hstop with h17 | hlen
        · exact Or.inl (by simpa [List.take_succ_cons, List.append_assoc] using h17)
        · exact Or.inr (by simp [hlen])

/-- C4 (amended): after Stand the dealer draws exactly while its best value
is below 17 — standing on every 17 including soft 17 (the source has no
hit-soft-17 rule) — and then dealer bust or a greater player best value pays
the bet 1:1, a lesser player value loses, and equal values push. -/
theorem blackjack_dealer_policy (player dealer deck : List BJCard) (bet : Nat) :
    (∃ k, k ≤ deck.length ∧
      dealerPlay dealer deck = (dealer ++ deck.take k, deck.drop k) ∧
      (∀ j, j < k → get_best_value (dealer ++ deck.take j) < 17) ∧
      (17 ≤ get_best_value (dealer ++ deck.take k) ∨ k = deck.length)) ∧
    (is_bust (dealerPlay dealer deck).1 →
      resolve_stand player dealer deck bet = { won := true, winnings := (bet : Int), push := false }) ∧
    (¬ is_bust (dealerPlay dealer deck).1 →
      (get_best_value (dealerPlay dealer deck).1 < get_best_value player →
        resolve_stand player dealer deck bet = { won := true, winnings := (bet : Int), push := false }) ∧
      (get_best_value player < get_best_value (dealerPlay dealer deck).1 →
        resolve_stand player dealer deck bet = { won := false, winnings := 0, push := false }) ∧
      (get_best_value player = get_best_value (dealerPlay dealer deck).1 →
        resolve_stand player dealer deck bet = { won := false, winnings := 0, push := true })) := by
  refine ⟨dealerPlay_spec deck dealer, ?_, ?_⟩
  · intro hb
    simp [resolve_stand, if_pos hb]
  · intro hb
    refine ⟨?_, ?_, ?_⟩
    · intro hgt
      simp [resolve_stand, if_neg hb, if_pos hgt]
    · intro hlt
      have h1 : ¬ (get_best_value (dealerPlay dealer deck).1 < get_best_value player) := by omega
      simp [resolve_stand, if_neg hb, if_neg h1, if_pos hlt]
    · intro heqv
      have h1 : ¬ (get_best_value (dealerPlay dealer deck).1 < get_best_value player) := by omega
      have h2 : ¬ (get_best_value player < get_best_value (dealerPlay dealer deck).1) := by omega
      simp [resolve_stand, if_neg hb, if_neg h1, if_neg h2]

/-- C4 counterexample: with A♠ 6♥ the dealer holds a soft 17 (hard 7, soft
17) and draws no card even though the deck is nonempty — the code stands on
soft 17 instead of hitting it as the claim states. -/
theorem blackjack_soft17_counterexample :
    (calculate_hand_value [⟨Suit.Spades, BJRank.A⟩, ⟨Suit.Hearts, BJRank.N6⟩]).2 = 17 ∧
    (calculate_hand_value [⟨Suit.Spades, BJRank.A⟩, ⟨Suit.Hearts, BJRank.N6⟩]).1 = 7 ∧
    dealerPlay [⟨Suit.Spades, BJRank.A⟩, ⟨Suit.Hearts, BJRank.N6⟩] [⟨Suit.Clubs, BJRank.K⟩] =
      ([⟨Suit.Spades, BJRank.A⟩, ⟨Suit.Hearts, BJRank.N6⟩], [⟨Suit.Clubs, BJRank.K⟩]) := by
  decide

/-- C5 (amended): any ten-value card plus an Ace is a blackjack, and the
deal short-circuits: both blackjack pushes with winnings 0, player-only
blackjack resolves immediately (never reaching the player turn) with
winnings `⌊3·b/2⌋` — the `int(bet * 1.5)` of the source, which truncates for
odd bets — and dealer-only blackjack resolves immediately as a loss. -/
theorem blackjack_initial_resolution (c0 c1 c2 c3 : BJCard) (rest : List BJCard) (bet : Nat) :
    (∀ c d : BJCard, c.rank.get_value = 10 → d.rank = BJRank.A → is_blackjack [c, d]) ∧
    (is_blackjack [c0, c1] → is_blackjack [c2, c3] →
      bjInitialPhase (c0 :: c1 :: c2 :: c3 :: rest) bet =
        some (.resolved { won := false, winnings := 0, push := true })) ∧
    (is_blackjack [c0, c1] → ¬ is_blackjack [c2, c3] →
      bjInitialPhase (c0 :: c1 :: c2 :: c3 :: rest) bet =
        some (.resolved { won := true, winnings := ((3 * bet) / 2 : Nat), push := false })) ∧
    (¬ is_blackjack [c0, c1] → is_blackjack [c2, c3] →
      bjInitialPhase (c0 :: c1 :: c2 :: c3 :: rest) bet =
        some (.resolved { won := false, winnings := 0, push := false })) := by
  refine ⟨?_, ?_, ?_, ?_⟩
  · intro c d hc hd
    have hcA : c.rank ≠ BJRank.A := fun h => by
      rw [h] at hc; simp [BJRank.get_value] at hc
    constructor
    · rfl
    · simp only [calculate_hand_value, List.foldl, List.filter]
      rw [if_neg hcA]
      simp [hd, hc, softLoop, hcA]
  · intro hp hd
    simp [bjInitialPhase, if_pos (And.intro hp hd)]
  · intro hp hd
    simp [bjInitialPhase, if_neg (fun h : _ ∧ _ => hd h.2), if_pos hp]
  · intro hp hd
    simp [bjInitialPhase, if_neg (fun h : _ ∧ _ => hp h.1), if_neg hp, if_pos hd]

/-- C5 counterexample: a bet of 5 with player blackjack pays
`int(5 * 1.5) = 7` coins, not `3/2 × 5 = 7.5` as the claim states. -/
theorem blackjack_payout_counterexample :
    bjInitialPhase [⟨Suit.Spades, BJRank.A⟩, ⟨Suit.Hearts, BJRank.K⟩,
        ⟨Suit.Clubs, BJRank.N9⟩, ⟨Suit.Diamonds, BJRank.N7⟩] 5 =
      some (.resolved { won := true, winnings := 7, push := false }) ∧
    ¬ ((7 : ℚ) = 3 / 2 * 5) := by
  constructor
  · decide
  · norm_num


/-! ## C2: slots -/

/-- The loop of `calculate_payout`, characterised: with a zero running best
it returns the maximum of all 3-match candidates and the first positive
candidate when that is a 2-match one; with a positive running best every
2-match candidate is ignored. -/
theorem calcLoop_spec (reels : List SlotSym) (bet : Nat) (syms : List SlotSym) :
    ∀ best, calcLoop reels bet syms best =
      if best = 0 then max (maxThreeAux reels bet syms) (firstTwoAux reels bet syms)
      else max best (maxThreeAux reels bet syms) := by
  induction syms with
  | nil =>
    intro best
    by_cases h : best = 0 <;> simp [calcLoop, maxThreeAux, firstTwoAux, h]
  | cons s rest ih =>
    intro best
    by_cases h3 : 3 ≤ countOf s reels
    · have hM : maxThreeAux reels bet (s :: rest)
          = max (cand3 bet s) (maxThreeAux reels bet rest) := by
        simp [maxThreeAux, h3]
      by_cases hb : best = 0
      · subst hb
        have step : calcLoop reels bet (s :: rest) 0
            = calcLoop reels bet rest (cand3 bet s) := by
          simp [calcLoop, h3, ifmax]
        rw [step, ih, if_pos rfl, hM]
        by_cases hp : cand3 bet s = 0
        · have hF : firstTwoAux reels bet (s :: rest) = firstTwoAux reels bet rest := by
            simp [firstTwoAux, rawCand, h3, hp]
          rw [if_pos hp, hF, hp]
          omega
        · have hF : firstTwoAux reels bet (s :: rest) = 0 := by
            simp [firstTwoAux, rawCand, h3, Nat.pos_of_ne_zero hp]
          rw [if_neg hp, hF]
          omega
      · have step : calcLoop reels bet (s :: rest) best
            = calcLoop reels bet rest (max best (cand3 bet s)) := by
          simp [calcLoop, h3, ifmax]
        have hb2 : ¬ (max best (cand3 bet s) = 0) := by omega
        rw [step, ih, if_neg hb2, if_neg hb, hM]
        omega
    · have hM : maxThreeAux reels bet (s :: rest) = maxThreeAux reels bet rest := by
        simp [maxThreeAux, h3]
      by_cases hb : best = 0
      · subst hb
        rw [if_pos rfl]
        by_cases h2 : 2 ≤ countOf s reels
        · have step : calcLoop reels bet (s :: rest) 0
              = calcLoop reels bet rest (cand2 bet s) := by
            simp [calcLoop, h3, h2, ifmax]
          rw [step, ih, hM]
          by_cases hp : cand2 bet s = 0
          · have hF : firstTwoAux reels bet (s :: rest) = firstTwoAux reels bet rest := by
              simp [firstTwoAux, rawCand, h3, h2, hp]
            rw [if_pos hp, hF]
          · have hF : firstTwoAux reels bet (s :: rest) = cand2 bet s := by
              simp [firstTwoAux, rawCand, h3, h2, Nat.pos_of_ne_zero hp]
            rw [if_neg hp, hF]
            omega
        · have step : calcLoop reels bet (s :: rest) 0 = calcLoop reels bet rest 0 := by
            simp [calcLoop, h3, h2]
          have hF : firstTwoAux reels bet (s :: rest) = firstTwoAux reels bet rest := by
            simp [firstTwoAux, rawCand, h3, h2]
          rw [step, ih, if_pos rfl, hM, hF]
      · have step : calcLoop reels bet (s :: rest) best = calcLoop reels bet rest best := by
          simp [calcLoop, h3, hb]
        rw [step, ih, if_neg hb, if_neg hb, hM]

/-- C2 (amended): the slots payout is the maximum of all 3-match candidates
`int(bet × m3)` and of the single 2-match candidate `int(bet × m2)` of the
first symbol — in order of first appearance in the reels — whose candidate is
positive while every candidate scanned before it evaluated to zero (so an
early 2-match payout can shadow a later, larger 2-match payout); a zero
payout is a loss. -/
theorem slots_payout_characterization (reels : List SlotSym) (bet : Nat) :
    calculate_payout reels bet =
      max (maxThreeAux reels bet (firstOccs reels)) (firstTwoAux reels bet (firstOccs reels)) ∧
    (calculate_payout reels bet = 0 →
      slots_outcome reels bet = { won := false, winnings := 0, push := false }) := by
  constructor
  · rw [calculate_payout, calcLoop_spec, if_pos rfl]
  · intro h
    simp [slots_outcome, h]

/-- C2 counterexample: on reels 🍒🍒💎💎🍋 with bet 100 the code pays the
cherry pair (100 coins) because cherries are scanned first, while the
maximum-candidate rule of the claim would pay the diamond pair (2500 coins). -/
theorem slots_claim_counterexample :
    calculate_payout
        [SlotSym.Cherry, SlotSym.Cherry, SlotSym.Diamond, SlotSym.Diamond, SlotSym.Lemon] 100 = 100 ∧
    claimSlotsPayout
        [SlotSym.Cherry, SlotSym.Cherry, SlotSym.Diamond, SlotSym.Diamond, SlotSym.Lemon] 100 = 2500 ∧
    (100 : Nat) ≠ 2500 := by
  decide

/-! ## C9, C1, C3: poker -/

/-- C9: `evaluate_hand` fails (raises `ValueError`) exactly when not given 5
cards, `get_best_hand` exactly when hole + community is not 7 cards, and each
returns a result otherwise. -/
theorem poker_hand_size_errors :
    (∀ cards : List PCard, (∃ e, evaluate_hand cards = Except.error e) ↔ cards.length ≠ 5) ∧
    (∀ cards : List PCard, (∃ r, evaluate_hand cards = Except.ok r) ↔ cards.length = 5) ∧
    (∀ hole community : List PCard,
      (∃ e, get_best_hand hole community = Except.error e) ↔
        hole.length + community.length ≠ 7) ∧
    (∀ hole community : List PCard,
      (∃ r, get_best_hand hole community = Except.ok r) ↔
        hole.length + community.length = 7) := by
  refine ⟨?_, ?_, ?_, ?_⟩
  · intro cards
    by_cases h : cards.length = 5 <;> simp [evaluate_hand, h]
  · intro cards
    by_cases h : cards.length = 5 <;> simp [evaluate_hand, h]
  · intro hole community
    by_cases h : hole.length + community.length = 7 <;>
      simp [get_best_hand, List.length_append, h]
  · intro hole community
    by_cases h : hole.length + community.length = 7 <;>
      simp [get_best_hand, List.length_append, h]

/-- C1: a fold at the flop holding K♠K♥ against board 2♣5♦9♥ (padded with
3♠7♣) with ante 100 and bonus 10 settles the bonus as a pair (2:1, 20 coins)
and stores `{won: True, winnings: 20 - 100 = -80}` — a negative winnings
value on a won outcome, contradicting the non-negative `GameOutcome.winnings`
invariant. -/
theorem poker_fold_negative_winnings :
    fold_resolve stBug = Except.ok { won := true, winnings := -80, push := false } ∧
    (-80 : Int) < 0 := by
  constructor
  · decide
  · decide

/-- C3 counterexample: a pre-flop fold (no community cards) with a live
bonus bet of 10 and hole cards K♠K♥ returns a plain loss with winnings 0 —
even though the padded 5-card board would give a pair, which the bonus table
pays 2:1 (20 ≠ 0) — so the bonus side-bet is not settled pre-flop. -/
theorem poker_preflop_fold_counterexample :
    fold_resolve stPre = Except.ok { won := false, winnings := 0, push := false } ∧
    (get_best_hand stPre.player_hole
      (stPre.community ++ stPre.deck.take (5 - stPre.community.length))).isOk = true ∧
    bestRankAfterFold stPre = HandRank.PAIR ∧
    bonus_payouts HandRank.PAIR = some 2 ∧
    stPre.bonus * 2 = 20 ∧ (20 : Int) ≠ 0 := by
  refine ⟨by decide, by decide, by decide, by decide, by decide, by decide⟩

/-- C3 (amended): a fold with a live bonus bet settles the bonus only when
at least 3 community cards have been dealt — the undealt cards are then drawn
to complete a 5-card board, the best player hand is evaluated on it, and
the bonus pays `bonus × table[rank]` (minus the ante) if the rank is in the
bonus paytable, else loses — while a pre-flop fold forfeits the bonus
unconditionally without any evaluation. -/
theorem poker_fold_settlement (s : PokerFoldState)
    (hh : s.player_hole.length = 2) (h5 : s.community.length ≤ 5)
    (hd : 5 - s.community.length ≤ s.deck.length) (hb : 0 < s.bonus) :
    (s.community.length < 3 →
      fold_resolve s = Except.ok { won := false, winnings := 0, push := false }) ∧
    (3 ≤ s.community.length →
      (s.community ++ s.deck.take (5 - s.community.length)).length = 5 ∧
      ∃ bh tb, get_best_hand s.player_hole
          (s.community ++ s.deck.take (5 - s.community.length)) =
          Except.ok (bh, bestRankAfterFold s, tb) ∧
        fold_resolve s = Except.ok
          (match bonus_payouts (bestRankAfterFold s) with
           | some pay =>
             { won := true, winnings := (s.bonus : Int) * pay - (s.ante : Int), push := false }
           | none => { won := false, winnings := 0, push := false })) := by
  constructor
  · intro hlt
    rw [fold_resolve, if_pos hb, if_neg (by omega)]
  · intro h3
    have hboard : (s.community ++ s.deck.take (5 - s.community.length)).length = 5 := by
      rw [List.length_append, List.length_take]
      omega
    have hlen : (s.player_hole ++ (s.community ++ s.deck.take (5 - s.community.length))).length = 7 := by
      rw [List.length_append, hh, hboard]
    have hget : get_best_hand s.player_hole (s.community ++ s.deck.take (5 - s.community.length))
        = Except.ok (bestHandCore
            (s.player_hole ++ (s.community ++ s.deck.take (5 - s.community.length)))) := by
      rw [get_best_hand, if_neg (by rw [hlen]; omega)]
    refine ⟨hboard,
      (bestHandCore (s.player_hole ++ (s.community ++ s.deck.take (5 - s.community.length)))).1,
      (bestHandCore (s.player_hole ++ (s.community ++ s.deck.take (5 - s.community.length)))).2.2,
      ?_, ?_⟩
    · rw [hget]
      rfl
    · rw [fold_resolve, if_pos hb, if_pos h3, hget]
      rcases hE : bestHandCore (s.player_hole ++ (s.community ++ s.deck.take (5 - s.community.length))) with ⟨bh2, br2, bv2⟩
      have hbr : bestRankAfterFold s = br2 := by rw [bestRankAfterFold, hE]
      rw [hbr]
      cases hpay : bonus_payouts br2 <;> simp [hpay]

/-- Witness for C3: the settlement branch at a concrete flop fold. -/
theorem poker_fold_settlement_witness :
    (stW.community ++ stW.deck.take (5 - stW.community.length)).length = 5 ∧
    fold_resolve stW = Except.ok { won := true, winnings := 10, push := false } :=
  ⟨((poker_fold_settlement stW (by decide) (by decide) (by decide) (by decide)).2
      (by decide)).1,
   by decide⟩

/-! ## C6/C10: roulette -/

theorem digitChar_facts : ∀ d, d < 10 →
    (isDigitCh (digitChar d) = true ∧ lowerCh (digitChar d) = digitChar d ∧
     isSpaceCh (digitChar d) = false ∧ digitChar d ≠ '-' ∧ digitChar d ≠ ',' ∧
     digitChar d ≠ '+' ∧ digitVal (digitChar d) = d) := by
  decide

theorem digitsOf_chars (n : Nat) (hn : n ≤ 99) :
    ∀ c ∈ digitsOf n, ∃ d, d < 10 ∧ c = digitChar d := by
  intro c hc
  unfold digitsOf at hc
  by_cases h : n < 10
  · rw [if_pos h] at hc
    simp at hc
    exact ⟨n, h, hc⟩
  · rw [if_neg h] at hc
    simp at hc
    rcases hc with hc | hc
    · exact ⟨n / 10, by omega, hc⟩
    · exact ⟨n % 10, by omega, hc⟩

theorem digitsOf_ne_nil (n : Nat) : digitsOf n ≠ [] := by
  unfold digitsOf
  split <;> simp

theorem strToNat_digitsOf (n : Nat) (hn : n ≤ 99) : strToNat (digitsOf n) = n := by
  unfold digitsOf strToNat
  by_cases h : n < 10
  · rw [if_pos h]
    simp [List.foldl, (digitChar_facts n h).2.2.2.2.2.2]
  · rw [if_neg h]
    simp [List.foldl, (digitChar_facts (n / 10) (by omega)).2.2.2.2.2.2,
      (digitChar_facts (n % 10) (by omega)).2.2.2.2.2.2]
    omega

theorem digitsOf_no_hyphen (n : Nat) (hn : n ≤ 99) : '-' ∉ digitsOf n := by
  intro hmem
  obtain ⟨d, hd, hc⟩ := digitsOf_chars n hn '-' hmem
  exact (digitChar_facts d hd).2.2.2.1 hc.symm

theorem digitsOf_no_comma (n : Nat) (hn : n ≤ 99) : ',' ∉ digitsOf n := by
  intro hmem
  obtain ⟨d, hd, hc⟩ := digitsOf_chars n hn ',' hmem
  exact (digitChar_facts d hd).2.2.2.2.1 hc.symm

theorem dropWhile_false {p : Char → Bool} {l : PyStr} (h : ∀ c ∈ l, p c = false) :
    l.dropWhile p = l := by
  cases l with
  | nil => rfl
  | cons a l => simp [List.dropWhile, h a (List.mem_cons_self a l)]

theorem pyStrip_eq_self {s : PyStr} (h : ∀ c ∈ s, isSpaceCh c = false) : pyStrip s = s := by
  unfold pyStrip
  rw [dropWhile_false h, dropWhile_false (fun c hc => h c (List.mem_reverse.mp hc)),
    List.reverse_reverse]

theorem pyLower_eq_self {s : PyStr} (h : ∀ c ∈ s, lowerCh c = c) : pyLower s = s := by
  unfold pyLower
  exact (List.map_congr_left h).trans (List.map_id s)

theorem pyIsDigit_false_of_mem {s : PyStr} {c : Char} (hc : c ∈ s)
    (h : isDigitCh c = false) : pyIsDigit s = false := by
  unfold pyIsDigit
  have : s.all isDigitCh = false := by
    rw [List.all_eq_false]
    exact ⟨c, hc, by simp [h]⟩
  rw [this, Bool.and_false]

theorem splitOnCh_ne_nil (sep : Char) (s : PyStr) : splitOnCh sep s ≠ [] := by
  cases s with
  | nil => simp [splitOnCh]
  | cons c cs =>
    unfold splitOnCh
    split
    · simp
    · split <;> simp

theorem splitOnCh_not_mem (sep : Char) (s : PyStr) (h : sep ∉ s) : splitOnCh sep s = [s] := by
  induction s with
  | nil => rfl
  | cons c cs ih =>
    have hcs : sep ∉ cs := fun hm => h (List.mem_cons_of_mem _ hm)
    have hc : ¬ (c = sep) := fun he => h (he ▸ List.mem_cons_self c cs)
    unfold splitOnCh
    rw [ih hcs]
    simp [hc]

theorem splitOnCh_cons (sep c : Char) (cs : PyStr) :
    splitOnCh sep (c :: cs) =
      (match splitOnCh sep cs with
       | [] => [[]]
       | t :: ts => if c = sep then [] :: t :: ts else (c :: t) :: ts) := rfl

theorem splitOnCh_append (sep : Char) (as bs : PyStr) (h : sep ∉ as) :
    splitOnCh sep (as ++ sep :: bs) = as :: splitOnCh sep bs := by
  induction as with
  | nil =>
    simp only [List.nil_append]
    rw [splitOnCh_cons]
    rcases hsp : splitOnCh sep bs with _ | ⟨t, ts⟩
    · exact absurd hsp (splitOnCh_ne_nil sep bs)
    · simp [hsp]
  | cons a as ih =>
    have has : sep ∉ as := fun hm => h (List.mem_cons_of_mem _ hm)
    have ha : ¬ (a = sep) := fun he => h (he ▸ List.mem_cons_self a as)
    simp only [List.cons_append]
    rw [splitOnCh_cons, ih has]
    simp [ha]

theorem rangeStr_mem_chars (a b : Nat) (ha : a ≤ 99) (hb : b ≤ 99) :
    ∀ c ∈ rangeStr a b, c = '-' ∨ ∃ d, d < 10 ∧ c = digitChar d := by
  intro c hc
  rw [rangeStr, List.mem_append, List.mem_cons] at hc
  rcases hc with hc | hc | hc
  · exact Or.inr (digitsOf_chars a ha c hc)
  · exact Or.inl hc
  · exact Or.inr (digitsOf_chars b hb c hc)

theorem rangeStr_norm (a b : Nat) (ha : a ≤ 99) (hb : b ≤ 99) :
    pyLower (pyStrip (rangeStr a b)) = rangeStr a b := by
  rw [pyStrip_eq_self, pyLower_eq_self]
  · intro c hc
    rcases rangeStr_mem_chars a b ha hb c hc with h | ⟨d, hd, h⟩
    · rw [h]; decide
    · rw [h]; exact (digitChar_facts d hd).2.1
  · intro c hc
    rcases rangeStr_mem_chars a b ha hb c hc with h | ⟨d, hd, h⟩
    · rw [h]; decide
    · rw [h]; exact (digitChar_facts d hd).2.2.1

theorem rangeStr_has_hyphen (a b : Nat) : '-' ∈ rangeStr a b := by
  rw [rangeStr, List.mem_append]
  exact Or.inr (List.mem_cons_self _ _)

theorem rangeStr_no_comma (a b : Nat) (ha : a ≤ 99) (hb : b ≤ 99) : ',' ∉ rangeStr a b := by
  intro hc
  rcases rangeStr_mem_chars a b ha hb ',' hc with h | ⟨d, hd, h⟩
  · exact absurd h (by decide)
  · exact (digitChar_facts d hd).2.2.2.2.1 h.symm

theorem rangeStr_not_digit (a b : Nat) : pyIsDigit (rangeStr a b) = false :=
  pyIsDigit_false_of_mem (rangeStr_has_hyphen a b) (by decide)

theorem rangeStr_head (a b : Nat) (ha : a ≤ 99) : (rangeStr a b).head? ≠ some '-' := by
  rw [rangeStr]
  unfold digitsOf
  by_cases h : a < 10
  · rw [if_pos h]
    intro hc
    simp at hc
    exact (digitChar_facts a h).2.2.2.1 hc
  · rw [if_neg h]
    intro hc
    simp at hc
    exact (digitChar_facts (a / 10) (by omega)).2.2.2.1 hc

theorem hyphen_split_inj (as : PyStr) : ∀ as2 bs bs2 : PyStr, '-' ∉ as → '-' ∉ as2 →
    as ++ '-' :: bs = as2 ++ '-' :: bs2 → as = as2 ∧ bs = bs2 := by
  induction as with
  | nil =>
    intro as2 bs bs2 _ h2 heq
    cases as2 with
    | nil => simpa using heq
    | cons c2 cs2 =>
      simp only [List.nil_append, List.cons_append, List.cons.injEq] at heq
      exact absurd (heq.1 ▸ List.mem_cons_self c2 cs2) h2
  | cons c cs ih =>
    intro as2 bs bs2 h1 h2 heq
    cases as2 with
    | nil =>
      simp only [List.cons_append, List.nil_append, List.cons.injEq] at heq
      exact absurd (heq.1 ▸ List.mem_cons_self c cs) h1
    | cons c2 cs2 =>
      simp only [List.cons_append, List.cons.injEq] at heq
      obtain ⟨hcs, hbs⟩ := ih cs2 bs bs2 (fun hm => h1 (List.mem_cons_of_mem _ hm))
        (fun hm => h2 (List.mem_cons_of_mem _ hm)) heq.2
      exact ⟨by rw [heq.1, hcs], hbs⟩

theorem rangeStr_inj (a b a2 b2 : Nat) (ha : a ≤ 99) (hb : b ≤ 99) (ha2 : a2 ≤ 99)
    (hb2 : b2 ≤ 99) (h : rangeStr a b = rangeStr a2 b2) : a = a2 ∧ b = b2 := by
  obtain ⟨h1, h2⟩ := hyphen_split_inj (digitsOf a) (digitsOf a2) (digitsOf b) (digitsOf b2)
    (digitsOf_no_hyphen a ha) (digitsOf_no_hyphen a2 ha2) h
  constructor
  · rw [← strToNat_digitsOf a ha, h1, strToNat_digitsOf a2 ha2]
  · rw [← strToNat_digitsOf b hb, h2, strToNat_digitsOf b2 hb2]

theorem digitChar_dec : ∀ d, d < 10 → decDigitVal? (digitChar d) = some d := by
  decide

theorem decStrVal_digitsOf (n : Nat) (hn : n ≤ 99) : decStrVal? (digitsOf n) = some n := by
  unfold digitsOf
  by_cases h : n < 10
  · rw [if_pos h]
    show decValAux [digitChar n] 0 = some n
    simp [decValAux, digitChar_dec n h]
  · rw [if_neg h]
    show decValAux [digitChar (n / 10), digitChar (n % 10)] 0 = some n
    simp [decValAux, digitChar_dec (n / 10) (by omega), digitChar_dec (n % 10) (by omega)]
    omega

theorem pyIntNat_digitsOf (n : Nat) (hn : n ≤ 99) : pyIntNat (digitsOf n) = some n := by
  have hstrip : pyStrip (digitsOf n) = digitsOf n := by
    apply pyStrip_eq_self
    intro c hc
    obtain ⟨d, hd, hcd⟩ := digitsOf_chars n hn c hc
    rw [hcd]
    exact (digitChar_facts d hd).2.2.1
  rcases hds : digitsOf n with _ | ⟨c, cs⟩
  · exact absurd hds (digitsOf_ne_nil n)
  · have hcp : ¬ (c = '+') := by
      obtain ⟨d, hd, hcd⟩ := digitsOf_chars n hn c (hds ▸ List.mem_cons_self c cs)
      rw [hcd]
      exact (digitChar_facts d hd).2.2.2.2.2.1
    rw [hds] at hstrip
    have hval : decStrVal? (c :: cs) = some n := hds ▸ decStrVal_digitsOf n hn
    have : pyIntNat (c :: cs) = some n := by
      unfold pyIntNat
      rw [hstrip]
      change (if c = '+' then decStrVal? cs else decStrVal? (c :: cs)) = some n
      rw [if_neg hcp, hval]
    exact this

theorem parseCore_comma_eval (p : PyStr) (h : ',' ∈ p) : parseCore p = commaBranch p := by
  have hne : ∀ lit : PyStr, ',' ∉ lit → ¬ (p = lit) := fun lit hlit =>
    ne_of_mem_not_mem h hlit
  have hd : pyIsDigit p = false := pyIsDigit_false_of_mem h (by decide)
  unfold parseCore
  rw [if_neg (hne _ (by decide)),
    if_neg (not_or.mpr ⟨hne _ (by decide), hne _ (by decide)⟩),
    if_neg (by simp [hd]),
    if_neg (hne _ (by decide)), if_neg (hne _ (by decide)), if_neg (hne _ (by decide)),
    if_neg (not_or.mpr ⟨hne _ (by decide), not_or.mpr ⟨hne _ (by decide), hne _ (by decide)⟩⟩),
    if_neg (not_or.mpr ⟨hne _ (by decide), not_or.mpr ⟨hne _ (by decide), hne _ (by decide)⟩⟩),
    if_neg (not_or.mpr ⟨hne _ (by decide), hne _ (by decide)⟩),
    if_neg (not_or.mpr ⟨hne _ (by decide), hne _ (by decide)⟩),
    if_neg (not_or.mpr ⟨hne _ (by decide), hne _ (by decide)⟩),
    if_neg (not_or.mpr ⟨hne _ (by decide), hne _ (by decide)⟩),
    if_neg (not_or.mpr ⟨hne _ (by decide), hne _ (by decide)⟩),
    if_neg (not_or.mpr ⟨hne _ (by decide), hne _ (by decide)⟩),
    if_neg (hne _ (by decide)), if_neg (hne _ (by decide)),
    if_pos h]

theorem parseCore_range_eval (a b : Nat) (h1 : 1 ≤ a) (h2 : a ≤ b) (h3 : b ≤ 36)
    (hno : ¬ ((a = 1 ∧ b = 18) ∨ (a = 19 ∧ b = 36) ∨ (a = 1 ∧ b = 12) ∨
      (a = 13 ∧ b = 24) ∨ (a = 25 ∧ b = 36))) :
    parseCore (rangeStr a b) = rangeBranch (rangeStr a b) := by
  have ha99 : a ≤ 99 := by omega
  have hb99 : b ≤ 99 := by omega
  have h := rangeStr_has_hyphen a b
  have hne : ∀ lit : PyStr, '-' ∉ lit → ¬ (rangeStr a b = lit) := fun lit hlit =>
    ne_of_mem_not_mem h hlit
  have hlit : ∀ a2 b2 : Nat, a2 ≤ 99 → b2 ≤ 99 → ¬ (a = a2 ∧ b = b2) →
      ¬ (rangeStr a b = rangeStr a2 b2) := fun a2 b2 ha2 hb2 hnab heq =>
    hnab (rangeStr_inj a b a2 b2 ha99 hb99 ha2 hb2 heq)
  have hd : pyIsDigit (rangeStr a b) = false := rangeStr_not_digit a b
  have e1 : ¬ (rangeStr a b = ['1', '-', '1', '8']) := by
    have : rangeStr 1 18 = ['1', '-', '1', '8'] := by decide
    rw [← this]
    exact hlit 1 18 (by omega) (by omega) (fun hab => hno (Or.inl hab))
  have e2 : ¬ (rangeStr a b = ['1', '9', '-', '3', '6']) := by
    have : rangeStr 19 36 = ['1', '9', '-', '3', '6'] := by decide
    rw [← this]
    exact hlit 19 36 (by omega) (by omega) (fun hab => hno (Or.inr (Or.inl hab)))
  have e3 : ¬ (rangeStr a b = ['1', '-', '1', '2']) := by
    have : rangeStr 1 12 = ['1', '-', '1', '2'] := by decide
    rw [← this]
    exact hlit 1 12 (by omega) (by omega) (fun hab => hno (Or.inr (Or.inr (Or.inl hab))))
  have e4 : ¬ (rangeStr a b = ['1', '3', '-', '2', '4']) := by
    have : rangeStr 13 24 = ['1', '3', '-', '2', '4'] := by decide
    rw [← this]
    exact hlit 13 24 (by omega) (by omega)
      (fun hab => hno (Or.inr (Or.inr (Or.inr (Or.inl hab)))))
  have e5 : ¬ (rangeStr a b = ['2', '5', '-', '3', '6']) := by
    have : rangeStr 25 36 = ['2', '5', '-', '3', '6'] := by decide
    rw [← this]
    exact hlit 25 36 (by omega) (by omega)
      (fun hab => hno (Or.inr (Or.inr (Or.inr (Or.inr hab)))))
  unfold parseCore
  rw [if_neg (hne _ (by decide)),
    if_neg (not_or.mpr ⟨hne _ (by decide), hne _ (by decide)⟩),
    if_neg (by simp [hd]),
    if_neg (hne _ (by decide)), if_neg (hne _ (by decide)), if_neg (hne _ (by decide)),
    if_neg (not_or.mpr ⟨hne _ (by decide), not_or.mpr ⟨e1, hne _ (by decide)⟩⟩),
    if_neg (not_or.mpr ⟨hne _ (by decide), not_or.mpr ⟨e2, hne _ (by decide)⟩⟩),
    if_neg (not_or.mpr ⟨hne _ (by decide), e3⟩),
    if_neg (not_or.mpr ⟨hne _ (by decide), e4⟩),
    if_neg (not_or.mpr ⟨hne _ (by decide), e5⟩),
    if_neg (not_or.mpr ⟨hne _ (by decide), hne _ (by decide)⟩),
    if_neg (not_or.mpr ⟨hne _ (by decide), hne _ (by decide)⟩),
    if_neg (not_or.mpr ⟨hne _ (by decide), hne _ (by decide)⟩),
    if_neg (hne _ (by decide)), if_neg (hne _ (by decide)),
    if_neg (rangeStr_no_comma a b ha99 hb99),
    if_pos (And.intro h (rangeStr_head a b ha99))]

theorem rangeBranch_eval (a b : Nat) (h1 : 1 ≤ a) (h2 : a ≤ b) (h3 : b ≤ 36) :
    rangeBranch (rangeStr a b) =
      (if 18 < (Finset.Icc a b).card then invalidBet
       else { type := .range, numbers := Finset.Icc a b,
              payout := max 1 (36 / (Finset.Icc a b).card - 1) }) := by
  have ha99 : a ≤ 99 := by omega
  have hb99 : b ≤ 99 := by omega
  unfold rangeBranch rangeStr
  rw [splitOnCh_append '-' (digitsOf a) (digitsOf b) (digitsOf_no_hyphen a ha99),
    splitOnCh_not_mem '-' (digitsOf b) (digitsOf_no_hyphen b hb99)]
  simp only [pyIntNat_digitsOf a ha99, pyIntNat_digitsOf b hb99]
  rw [if_pos (show 1 ≤ a ∧ a ≤ b ∧ b ≤ 36 from ⟨h1, h2, h3⟩)]

/-- C6: for every range prediction "a-b" with 1 ≤ a ≤ b ≤ 36,
`parse_prediction` returns the target set {a,…,b} with payout
`max(1, ⌊36/(b−a+1)⌋ − 1)` when the range spans at most 18 numbers, and
rejects the bet as invalid — with the outcome independent of any spin — when
it spans more. -/
theorem roulette_range_parse (a b : Nat) (h1 : 1 ≤ a) (h2 : a ≤ b) (h3 : b ≤ 36) :
    (b - a + 1 ≤ 18 →
      (parse_prediction (rangeStr a b)).numbers = Finset.Icc a b ∧
      (parse_prediction (rangeStr a b)).payout = max 1 (36 / (b - a + 1) - 1)) ∧
    (18 < b - a + 1 →
      (parse_prediction (rangeStr a b)).type = BetType.invalid ∧
      ∀ bet spin, roulette_outcome (rangeStr a b) bet spin =
        { won := false, winnings := 0, push := false }) := by
  have ha99 : a ≤ 99 := by omega
  have hb99 : b ≤ 99 := by omega
  by_cases hsp : (a = 1 ∧ b = 18) ∨ (a = 19 ∧ b = 36) ∨ (a = 1 ∧ b = 12) ∨
      (a = 13 ∧ b = 24) ∨ (a = 25 ∧ b = 36)
  · rcases hsp with ⟨rfl, rfl⟩ | ⟨rfl, rfl⟩ | ⟨rfl, rfl⟩ | ⟨rfl, rfl⟩ | ⟨rfl, rfl⟩ <;>
      exact ⟨fun _ => ⟨by decide, by decide⟩, fun hgt => absurd hgt (by decide)⟩
  · have hparse : parse_prediction (rangeStr a b) =
        (if 18 < (Finset.Icc a b).card then invalidBet
         else { type := .range, numbers := Finset.Icc a b,
                payout := max 1 (36 / (Finset.Icc a b).card - 1) }) := by
      rw [parse_prediction, rangeStr_norm a b ha99 hb99,
        parseCore_range_eval a b h1 h2 h3 hsp, rangeBranch_eval a b h1 h2 h3]
    have hcard : (Finset.Icc a b).card = b - a + 1 := by
      rw [Nat.card_Icc]
      omega
    constructor
    · intro hle
      rw [hparse, if_neg (by omega : ¬ 18 < (Finset.Icc a b).card), hcard]
      exact ⟨rfl, rfl⟩
    · intro hgt
      have hinv : parse_prediction (rangeStr a b) = invalidBet := by
        rw [hparse, if_pos (by omega : 18 < (Finset.Icc a b).card)]
      refine ⟨by rw [hinv]; rfl, ?_⟩
      intro bet spin
      rw [roulette_outcome, hinv]
      rfl

/-- Witness for C6: "1-10" targets {1,…,10} with multiplier 2. -/
theorem roulette_range_parse_witness :
    (parse_prediction (rangeStr 1 10)).numbers = Finset.Icc 1 10 ∧
    (parse_prediction (rangeStr 1 10)).payout = 2 := by
  have h := (roulette_range_parse 1 10 (by decide) (by decide) (by decide)).1 (by decide)
  exact ⟨h.1, h.2.trans (by decide)⟩

theorem mem_of_mem_dropWhile {p : Char → Bool} {l : PyStr} {c : Char}
    (h : c ∈ l.dropWhile p) : c ∈ l := by
  induction l with
  | nil => simp at h
  | cons a l ih =>
    rw [List.dropWhile_cons] at h
    by_cases hp : p a = true
    · rw [if_pos hp] at h
      exact List.mem_cons_of_mem a (ih h)
    · rw [if_neg hp] at h
      exact h

theorem pyStrip_subset {s : PyStr} {c : Char} (h : c ∈ pyStrip s) : c ∈ s := by
  unfold pyStrip at h
  rw [List.mem_reverse] at h
  have h2 := mem_of_mem_dropWhile h
  rw [List.mem_reverse] at h2
  exact mem_of_mem_dropWhile h2

theorem splitOnCh_chars (sep : Char) (s : PyStr) :
    ∀ t ∈ splitOnCh sep s, ∀ c ∈ t, c ∈ s := by
  induction s with
  | nil =>
    intro t ht c hc
    simp [splitOnCh] at ht
    subst ht
    simp at hc
  | cons a s ih =>
    intro t ht c hc
    rw [splitOnCh_cons] at ht
    rcases hsp : splitOnCh sep s with _ | ⟨t0, ts⟩
    · exact absurd hsp (splitOnCh_ne_nil sep s)
    · rw [hsp] at ht
      change t ∈ (if a = sep then [] :: t0 :: ts else (a :: t0) :: ts) at ht
      by_cases ha : a = sep
      · rw [if_pos ha] at ht
        cases ht with
        | head => simp at hc
        | tail _ ht =>
          exact List.mem_cons_of_mem a (ih t (by rw [hsp]; exact ht) c hc)
      · rw [if_neg ha] at ht
        cases ht with
        | head =>
          cases hc with
          | head => exact List.mem_cons_self a s
          | tail _ hc =>
            exact List.mem_cons_of_mem a
              (ih t0 (by rw [hsp]; exact List.mem_cons_self t0 ts) c hc)
        | tail _ ht =>
          exact List.mem_cons_of_mem a
            (ih t (by rw [hsp]; exact List.mem_cons_of_mem t0 ht) c hc)

theorem ascii_digit_decimal {c : Char} (hc : c.toNat < 128) (hd : isDigitCh c = true) :
    decDigitVal? c = some (digitVal c) := by
  unfold isDigitCh at hd
  rw [Bool.or_eq_true] at hd
  rcases hd with hd | hd
  · unfold decDigitVal? at hd ⊢
    by_cases h1 : 48 ≤ c.toNat ∧ c.toNat ≤ 57
    · rw [if_pos h1]
      rfl
    · rw [if_neg h1] at hd ⊢
      by_cases h2 : 1632 ≤ c.toNat ∧ c.toNat ≤ 1641
      · omega
      · rw [if_neg h2] at hd
        simp at hd
  · have hmem := of_decide_eq_true hd
    have hbig : ∀ c2 ∈ ['¹', '²', '³', '⁰', '⁴', '⁵', '⁶', '⁷', '⁸', '⁹',
        '₀', '₁', '₂', '₃', '₄', '₅', '₆', '₇', '₈', '₉'], 128 ≤ Char.toNat c2 := by
      decide
    exact absurd (hbig c hmem) (by omega)

theorem decValAux_digits (t : PyStr) :
    (∀ c ∈ t, decDigitVal? c = some (digitVal c)) → ∀ acc,
      decValAux t acc = some (t.foldl (fun a c => 10 * a + digitVal c) acc) := by
  induction t with
  | nil => intro _ acc; rfl
  | cons c cs ih =>
    intro h acc
    have hc := h c (List.mem_cons_self c cs)
    rw [List.foldl_cons]
    show (match decDigitVal? c with
      | some d => decValAux cs (10 * acc + d)
      | none => none) = _
    rw [hc]
    exact ih (fun c2 h2 => h c2 (List.mem_cons_of_mem c h2)) (10 * acc + digitVal c)

theorem decValAux_mem {t : PyStr} : ∀ {acc n : Nat}, decValAux t acc = some n →
    ∀ c ∈ t, (decDigitVal? c).isSome = true := by
  induction t with
  | nil => intro acc n _ c hc; simp at hc
  | cons c0 cs ih =>
    intro acc n h c hc
    revert h
    show (match decDigitVal? c0 with
      | some d => decValAux cs (10 * acc + d)
      | none => none) = some n → _
    rcases hd0 : decDigitVal? c0 with _ | d
    · intro h; simp at h
    · intro h
      cases hc with
      | head => rw [hd0]; rfl
      | tail _ hc => exact ih h c hc

theorem pyIsDigit_of_decStrVal {t : PyStr} {n : Nat} (h : decStrVal? t = some n) :
    pyIsDigit t = true := by
  rcases t with _ | ⟨c, cs⟩
  · simp [decStrVal?] at h
  · have h2 : decValAux (c :: cs) 0 = some n := h
    have hall := decValAux_mem h2
    unfold pyIsDigit
    rw [Bool.and_eq_true, List.all_eq_true]
    refine ⟨rfl, ?_⟩
    intro c2 hc2
    unfold isDigitCh
    rw [Bool.or_eq_true]
    exact Or.inl (hall c2 hc2)

theorem tokenInsert_ascii (acc : Finset ℕ) (t : PyStr) (ht : ∀ c ∈ t, c.toNat < 128) :
    tokenInsert acc t = some
      (match validTokenNum t with
       | some n => insert n acc
       | none => acc) := by
  have hts : ∀ c ∈ pyStrip t, c.toNat < 128 := fun c hc => ht c (pyStrip_subset hc)
  unfold tokenInsert validTokenNum
  by_cases h00 : pyStrip t = ['0', '0']
  · simp [h00]
  · rw [if_neg h00, if_neg h00]
    by_cases hd : pyIsDigit (pyStrip t) = true
    · have hne : pyStrip t ≠ [] := by
        intro he
        rw [he] at hd
        simp [pyIsDigit] at hd
      have hall : ∀ c ∈ pyStrip t, decDigitVal? c = some (digitVal c) := by
        intro c hc
        have hisd : isDigitCh c = true := by
          unfold pyIsDigit at hd
          rw [Bool.and_eq_true, List.all_eq_true] at hd
          exact hd.2 c hc
        exact ascii_digit_decimal (hts c hc) hisd
      have hval : decStrVal? (pyStrip t) = some (strToNat (pyStrip t)) := by
        obtain ⟨c, cs, hps⟩ : ∃ c cs, pyStrip t = c :: cs := by
          rcases hq : pyStrip t with _ | ⟨c, cs⟩
          · exact absurd hq hne
          · exact ⟨c, cs, rfl⟩
        rw [hps]
        show decValAux (c :: cs) 0 = some (strToNat (c :: cs))
        rw [decValAux_digits (c :: cs) (hps ▸ hall) 0]
        rfl
      rw [if_pos hd, hval]
      by_cases h36 : strToNat (pyStrip t) ≤ 36
      · simp [h36]
      · simp [h36]
    · rw [if_neg hd]
      have hnone : decStrVal? (pyStrip t) = none := by
        rcases hq : decStrVal? (pyStrip t) with _ | n
        · rfl
        · exact absurd (pyIsDigit_of_decStrVal hq) hd
      rw [hnone]

theorem commaCollect_ascii (toks : List PyStr) :
    ∀ acc : Finset ℕ, (∀ t ∈ toks, ∀ c ∈ t, c.toNat < 128) →
      commaCollect toks acc = some (acc ∪ (toks.filterMap validTokenNum).toFinset) := by
  induction toks with
  | nil =>
    intro acc _
    simp [commaCollect]
  | cons t ts ih =>
    intro acc hascii
    show (match tokenInsert acc t with
      | some acc2 => commaCollect ts acc2
      | none => none) = _
    rw [tokenInsert_ascii acc t (hascii t (List.mem_cons_self t ts))]
    have hts : ∀ t2 ∈ ts, ∀ c ∈ t2, c.toNat < 128 :=
      fun t2 h2 => hascii t2 (List.mem_cons_of_mem t h2)
    cases hv : validTokenNum t with
    | none =>
      simp only [hv]
      rw [ih acc hts]
      simp [List.filterMap_cons, hv]
    | some n =>
      simp only [hv]
      rw [ih (insert n acc) hts]
      simp only [List.filterMap_cons, hv, List.toFinset_cons, Option.some.injEq]
      ext x
      simp

/-- C10 (amended): for every prediction whose normalized (lowercased,
stripped) form is ASCII and contains a comma, the comma-list branch applies:
tokens that are not "00" or a digit string valued at most 36 are silently
dropped, the bet is a `multiple` on the remaining numbers with payout
`max(1, ⌊36/count⌋ − 1)` whenever any valid token remains and at most 18
distinct numbers result, and the prediction is invalid otherwise.  Outside
ASCII this fails: a digit-only token such as "²" passes `str.isdigit()` but
makes `int()` raise, aborting the `try` and rejecting the whole bet. -/
theorem roulette_comma_parse (pred : PyStr)
    (hascii : ∀ c ∈ pyLower (pyStrip pred), c.toNat < 128)
    (h : ',' ∈ pyLower (pyStrip pred)) :
    parse_prediction pred =
      (if ((splitOnCh ',' (pyLower (pyStrip pred))).filterMap validTokenNum).toFinset.card = 0
       then invalidBet
       else if 18 <
          ((splitOnCh ',' (pyLower (pyStrip pred))).filterMap validTokenNum).toFinset.card
       then invalidBet
       else { type := .multiple,
              numbers := ((splitOnCh ',' (pyLower (pyStrip pred))).filterMap validTokenNum).toFinset,
              payout := max 1 (36 /
                ((splitOnCh ',' (pyLower (pyStrip pred))).filterMap validTokenNum).toFinset.card
                - 1) }) := by
  rw [parse_prediction, parseCore_comma_eval _ h]
  unfold commaBranch
  rw [commaCollect_ascii (splitOnCh ',' (pyLower (pyStrip pred))) ∅
    (fun t ht c hc => hascii c (splitOnCh_chars ',' _ t ht c hc))]
  simp only [Finset.empty_union]
  by_cases hc0 :
      ((splitOnCh ',' (pyLower (pyStrip pred))).filterMap validTokenNum).toFinset.card = 0
  · rw [if_pos hc0, if_neg (by omega), if_neg (by omega)]
  · rw [if_neg hc0]
    by_cases h18 : 18 <
        ((splitOnCh ',' (pyLower (pyStrip pred))).filterMap validTokenNum).toFinset.card
    · rw [if_pos h18, if_pos h18]
    · rw [if_neg h18, if_neg h18, if_pos (by omega)]

/-- C10 counterexample: the prediction "5,²" contains the valid token 5, yet
the whole bet is rejected — "²" passes the `isdigit` guard, `int("²")`
raises `ValueError`, and the `except` rejects the bet — instead of the
one-number bet on {5} paying 35:1 that silently dropping the invalid token
would produce. -/
theorem roulette_comma_counterexample :
    parse_prediction ['5', ',', '²'] = invalidBet ∧
    ((splitOnCh ',' ['5', ',', '²']).filterMap validTokenNum).toFinset = {5} ∧
    isDigitCh '²' = true ∧
    decStrVal? ['²'] = none ∧
    invalidBet.type = BetType.invalid ∧
    invalidBet ≠ { type := BetType.multiple, numbers := {5}, payout := 35 } := by
  refine ⟨by decide, by decide, by decide, by decide, by decide, by decide⟩

/-- Witness for C10: "5,99" keeps only 5 and pays 35:1. -/
theorem roulette_comma_parse_witness :
    parse_prediction ['5', ',', '9', '9'] =
      { type := .multiple, numbers := {5}, payout := 35 } :=
  (roulette_comma_parse ['5', ',', '9', '9'] (by decide) (by decide)).trans (by decide)
